import Mathlib

/-!
Verification of the patch-application engine of the repository
(`github_ops.apply_changes_locally` and its helpers), shallowly embedded
over `List Char` as the text representation (Python strings are sequences
of code points, so `List Char` with index-based `take`/`drop` matches
Python slicing on indices).

Each `print` warning emitted by the Python code is modelled as one entry
of a diagnostics log, carried alongside the working buffer.
-/

namespace Four

/-- Text is a sequence of characters, mirroring Python `str` indexing. -/
abbrev Str := List Char

/-- Python `text.replace('\r\n', '\n')` — left-to-right, non-overlapping. -/
def replaceCRLF : Str → Str
  | [] => []
  | '\r' :: '\n' :: rest => '\n' :: replaceCRLF rest
  | c :: rest => c :: replaceCRLF rest

/-- Python `text.replace('\t', '    ')`. -/
def replaceTab : Str → Str
  | [] => []
  | '\t' :: rest => ' ' :: ' ' :: ' ' :: ' ' :: replaceTab rest
  | c :: rest => c :: replaceTab rest

/-- The function `normalize_whitespace`: normalize line endings, then tabs to 4 spaces. -/
def normalize_whitespace (text : Str) : Str :=
  replaceTab (replaceCRLF text)

/-- Whether `pat` is a prefix of `s` (used to implement Python `str.find`). -/
def isPrefixL : Str → Str → Bool
  | [], _ => true
  | _ :: _, [] => false
  | a :: as, b :: bs => a = b && isPrefixL as bs

/-- Python `s.find(pat)`: index of the first occurrence, `none` if absent. -/
def findSub (s pat : Str) : Option Nat :=
  if isPrefixL pat s then some 0
  else
    match s with
    | [] => none
    | _ :: rest => (findSub rest pat).map (· + 1)

/-- The function `find_in_content`: find `search_text` in `content` after whitespace
normalization; `some index` into the normalized content, or `none`. -/
def find_in_content (content search_text : Str) : Option Nat :=
  findSub (normalize_whitespace content) (normalize_whitespace search_text)

/-- Python `text.split('\n')` (always returns at least one piece). -/
def split_on_nl : Str → List Str
  | [] => [[]]
  | '\n' :: rest => [] :: split_on_nl rest
  | c :: rest =>
    match split_on_nl rest with
    | l :: ls => (c :: l) :: ls
    | [] => [[c]]

/-- Python `'\n'.join(lines)`. -/
def joinNL : List Str → Str
  | [] => []
  | [l] => l
  | l :: ls => l ++ '\n' :: joinNL ls

/-- The characters Python `str.strip()` removes. -/
def stripChars : List Char := [' ', '\t', '\n', '\r', '\x0b', '\x0c']

/-- Python `s.strip()`. -/
def pstrip (s : Str) : Str :=
  ((s.dropWhile (· ∈ stripChars)).reverse.dropWhile (· ∈ stripChars)).reverse

/-- The scanning loop of `find_similar_text`: walk the lines with their
index, collecting the context window of each line containing the first
search line, stopping once `n` suggestions are collected. -/
def similarGo (alllines : List Str) (numsearch : Nat) (first : Str) (n : Nat) :
    List Str → Nat → Nat → List Str
  | [], _, _ => []
  | line :: rest, i, cnt =>
    if (findSub line first).isSome then
      let e := min alllines.length (i + numsearch)
      let context := joinNL ((alllines.drop i).take (e - i))
      if cnt + 1 ≥ n then [context]
      else context :: similarGo alllines numsearch first n rest (i + 1) (cnt + 1)
    else similarGo alllines numsearch first n rest (i + 1) cnt

/-- Python `find_similar_text(content, search_text, n=3)`: candidate context
snippets around lines containing the first line of the search text. -/
def find_similar_text (content search_text : Str) (n : Nat) : List Str :=
  let lines := split_on_nl content
  let search_lines := split_on_nl search_text
  if search_lines = [] then []
  else
    let first_search_line := pstrip (search_lines.headD [])
    similarGo lines search_lines.length first_search_line n lines 0 0

/-- One entry of the diagnostics log; each constructor corresponds to one
`print` warning site in `apply_changes_locally` (payloads carry the data
interpolated into the printed message). -/
inductive Diag where
  | replaceMissingSearch : Diag
  | replaceNotFoundWarn : Diag
  | replaceSearchedFor : Str → Diag
  | replaceSimilarFound : Str → Diag
  | eraseMissingSearch : Diag
  | eraseNotFound : Diag
  | insertMissingAnchor : Diag
  | insertAnchorNotFound : Diag
  | contentMismatch : List Str → List Str → Diag
  deriving DecidableEq, Repr

/-- One change operation: the JSON-compatible record, every field optional
exactly as `change.get(...)` treats it. -/
structure Change where
  action : Option Str := none
  file : Option Str := none
  search : Option Str := none
  replaceWith : Option Str := none
  insert : Option Str := none
  position : Option Str := none
  content : Option Str := none
  deriving DecidableEq, Repr

/-- The body of the `for change in changes` loop of `apply_changes_locally`
for a single change: returns `none` on `delete_file` (the Python
`return None`), otherwise `some` of the updated buffer, paired with the
diagnostics this change printed. -/
def applyOne (content : Str) (change : Change) : Option Str × List Diag :=
  let action := change.action
  if action = some "write".data then
    (some (change.content.getD []), [])
  else if action = some "delete_file".data then
    (none, [])
  else if action = some "replace".data then
    let search_text := change.search.getD []
    let replace_text := change.replaceWith.getD []
    if search_text = [] then
      (some content, [Diag.replaceMissingSearch])
    else
      match find_in_content content search_text with
      | some norm_index =>
        let normalized_content := normalize_whitespace content
        let before_normalized := normalized_content.take norm_index
        let before_original := content.take before_normalized.length
        let actual_start := before_original.length
        let actual_end := actual_start + search_text.length
        (some (content.take actual_start ++ replace_text ++ content.drop actual_end), [])
      | none =>
        let suggestions := find_similar_text content search_text 3
        (some content,
          [Diag.replaceNotFoundWarn, Diag.replaceSearchedFor (search_text.take 100)] ++
          match suggestions with
          | [] => []
          | sg :: _ => [Diag.replaceSimilarFound (sg.take 100)])
  else if action = some "erase".data then
    let search_text := change.search.getD []
    if search_text = [] then
      (some content, [Diag.eraseMissingSearch])
    else
      match find_in_content content search_text with
      | some norm_index =>
        let normalized_content := normalize_whitespace content
        let before_normalized := normalized_content.take norm_index
        let before_original := content.take before_normalized.length
        let actual_start := before_original.length
        let actual_end := actual_start + search_text.length
        (some (content.take actual_start ++ content.drop actual_end), [])
      | none =>
        (some content, [Diag.eraseNotFound])
  else if action = some "insert".data then
    let search_text := change.search.getD []
    let insert_text := change.insert.getD []
    let position := change.position.getD "after".data
    if position = "start".data then
      (some (insert_text ++ content), [])
    else if position = "end".data then
      (some (content ++ insert_text), [])
    else if search_text = [] then
      (some content, [Diag.insertMissingAnchor])
    else
      match find_in_content content search_text with
      | some norm_index =>
        let normalized_content := normalize_whitespace content
        let before_normalized := normalized_content.take norm_index
        let before_original := content.take before_normalized.length
        let actual_start := before_original.length
        if position = "before".data then
          (some (content.take actual_start ++ insert_text ++ content.drop actual_start), [])
        else
          let actual_end := actual_start + search_text.length
          (some (content.take actual_end ++ insert_text ++ content.drop actual_end), [])
      | none =>
        (some content, [Diag.insertAnchorNotFound])
  else
    (some content, [])

/-- Python `apply_changes_locally(original_content, changes)`: fold the loop over
the change list; `none` signals file deletion (the loop's early `return
None`), and the second component is the ordered diagnostics log printed
up to the point the function returned. -/
def apply_changes_locally (content : Str) : List Change → Option Str × List Diag
  | [] => (some content, [])
  | change :: rest =>
    match applyOne content change with
    | (none, ds) => (none, ds)
    | (some c, ds) =>
      let r := apply_changes_locally c rest
      (r.1, ds ++ r.2)

/-! ### Helper constructors for concrete operations -/

/-- A `replace` operation record. -/
def mkReplace (s r : Str) : Change :=
  { action := some "replace".data, search := some s, replaceWith := some r }

/-- An `erase` operation record. -/
def mkErase (s : Str) : Change :=
  { action := some "erase".data, search := some s }

/-- A `write` operation record. -/
def mkWrite (c : Str) : Change :=
  { action := some "write".data, content := some c }

/-- A `delete_file` operation record. -/
def mkDeleteFile : Change :=
  { action := some "delete_file".data }

/-- An `insert` operation record with a position and no search anchor. -/
def mkInsertAt (ins pos : Str) : Change :=
  { action := some "insert".data, insert := some ins, position := some pos }

/-! ### Basic lemmas about the embedded helpers -/

lemma replaceCRLF_cons_of_ne (c : Char) (rest : Str) (hc : c ≠ '\r') :
    replaceCRLF (c :: rest) = c :: replaceCRLF rest := by
  rw [replaceCRLF.eq_def]
  split <;> simp_all

lemma replaceTab_cons_of_ne (c : Char) (rest : Str) (hc : c ≠ '\t') :
    replaceTab (c :: rest) = c :: replaceTab rest := by
  rw [replaceTab.eq_def]
  split <;> simp_all

lemma replaceCRLF_of_clean (t : Str) (h : ∀ c ∈ t, c ≠ '\r') : replaceCRLF t = t := by
  induction t with
  | nil => rfl
  | cons c rest ih =>
    rw [replaceCRLF_cons_of_ne c rest (h c (by simp)),
      ih (fun x hx => h x (by simp [hx]))]

lemma replaceTab_of_clean (t : Str) (h : ∀ c ∈ t, c ≠ '\t') : replaceTab t = t := by
  induction t with
  | nil => rfl
  | cons c rest ih =>
    rw [replaceTab_cons_of_ne c rest (h c (by simp)),
      ih (fun x hx => h x (by simp [hx]))]

lemma normalize_of_clean (t : Str) (h : ∀ c ∈ t, c ≠ '\t' ∧ c ≠ '\r') :
    normalize_whitespace t = t := by
  unfold normalize_whitespace
  rw [replaceCRLF_of_clean t (fun c hc => (h c hc).2),
    replaceTab_of_clean t (fun c hc => (h c hc).1)]

lemma findSub_le (s pat : Str) (i : Nat) (h : findSub s pat = some i) : i ≤ s.length := by
  induction s generalizing i with
  | nil =>
    rw [findSub] at h
    split at h
    · simp_all
    · simp_all
  | cons c rest ih =>
    rw [findSub] at h
    split at h
    · obtain rfl : i = 0 := (Option.some.inj h).symm
      exact Nat.zero_le _
    · simp only [Option.map_eq_some'] at h
      obtain ⟨j, hj, rfl⟩ := h
      simpa using Nat.succ_le_succ (ih j hj)

lemma findSub_nil_pat (s : Str) : findSub s [] = some 0 := by
  rw [findSub.eq_def]
  split
  · rfl
  · simp [isPrefixL] at *

/-- A step of the loop when the change does not delete the file. -/
lemma apply_cons_some {content c : Str} {ch : Change} {ds : List Diag}
    (rest : List Change) (h : applyOne content ch = (some c, ds)) :
    apply_changes_locally content (ch :: rest) =
      ((apply_changes_locally c rest).1, ds ++ (apply_changes_locally c rest).2) := by
  simp only [apply_changes_locally, h]

/-- A step of the loop when the change deletes the file. -/
lemma apply_cons_none {content : Str} {ch : Change} {ds : List Diag}
    (rest : List Change) (h : applyOne content ch = (none, ds)) :
    apply_changes_locally content (ch :: rest) = (none, ds) := by
  simp only [apply_changes_locally, h]

/-- A `delete_file` change produces the deletion signal with no diagnostics. -/
lemma applyOne_delete (content : Str) (ch : Change)
    (h : ch.action = some "delete_file".data) : applyOne content ch = (none, []) := by
  simp only [applyOne, h]
  rw [if_neg (by decide), if_pos trivial]

/-- A non-`delete_file` change never produces the deletion signal. -/
lemma applyOne_isSome (content : Str) (ch : Change)
    (h : ch.action ≠ some "delete_file".data) :
    (applyOne content ch).1.isSome = true := by
  simp only [applyOne]
  repeat' split
  all_goals simp_all

/-- A non-`delete_file` change always yields an updated buffer. -/
lemma applyOne_not_delete (content : Str) (ch : Change)
    (h : ch.action ≠ some "delete_file".data) :
    ∃ c ds, applyOne content ch = (some c, ds) := by
  obtain ⟨c, hc⟩ := Option.isSome_iff_exists.mp (applyOne_isSome content ch h)
  exact ⟨c, (applyOne content ch).2, by rw [← hc]⟩

/-! ### Claim theorems -/

/-- C8: an Insert with position Start prepends its insert text to the buffer
unconditionally (no search anchor needed); applying the same operation to its
own output prepends it again: `"X\n"` on `"a\nb"` gives `"X\na\nb"`, and
re-application gives `"X\nX\na\nb"` (documented non-idempotence). -/
theorem C8_insert_start_prepends :
    (∀ (content ins : Str),
      apply_changes_locally content [mkInsertAt ins "start".data] =
        (some (ins ++ content), [])) ∧
    apply_changes_locally "a\nb".data [mkInsertAt "X\n".data "start".data] =
      (some "X\na\nb".data, []) ∧
    apply_changes_locally "X\na\nb".data [mkInsertAt "X\n".data "start".data] =
      (some "X\nX\na\nb".data, []) :=
  ⟨fun _ _ => rfl, rfl, rfl⟩

/-- C4: an Erase whose search text has no match after whitespace
normalization leaves the buffer unchanged and produces exactly one
diagnostic entry. -/
theorem C4_erase_not_found (content search : Str)
    (hfind : find_in_content content search = none) :
    apply_changes_locally content [mkErase search] =
      (some content, [Diag.eraseNotFound]) := by
  have hs : search ≠ [] := by
    intro h
    rw [h, find_in_content, show normalize_whitespace [] = [] from rfl,
      findSub_nil_pat] at hfind
    cases hfind
  have h1 : applyOne content (mkErase search) = (some content, [Diag.eraseNotFound]) := by
    simp only [applyOne, mkErase, Option.getD_some]
    rw [if_neg (by decide), if_neg (by decide), if_neg (by decide), if_pos trivial]
    rw [if_neg hs, hfind]
  rw [apply_cons_some [] h1]
  rfl

/-- Witness for C4 at a concrete input. -/
theorem C4_erase_not_found_witness :
    find_in_content "a".data "b".data = none ∧
    apply_changes_locally "a".data [mkErase "b".data] =
      (some "a".data, [Diag.eraseNotFound]) :=
  ⟨by decide, C4_erase_not_found "a".data "b".data (by decide)⟩

/-- C10: `apply_changes_locally` returns the deletion signal (`none`) iff the
change list contains an operation with action `delete_file`; otherwise it
returns an updated buffer, every non-delete operation (malformed and unknown
ones included) leaving processing running to the end of the list. -/
theorem C10_none_iff_delete (content : Str) (changes : List Change) :
    (apply_changes_locally content changes).1 = none ↔
      ∃ ch ∈ changes, ch.action = some "delete_file".data := by
  induction changes generalizing content with
  | nil => simp [apply_changes_locally]
  | cons ch rest ih =>
    by_cases hd : ch.action = some "delete_file".data
    · rw [apply_cons_none rest (applyOne_delete content ch hd)]
      exact iff_of_true rfl ⟨ch, by simp, hd⟩
    · obtain ⟨c, ds, hc⟩ := applyOne_not_delete content ch hd
      rw [apply_cons_some rest hc]
      show (apply_changes_locally c rest).1 = none ↔ _
      rw [ih c]
      constructor
      · rintro ⟨x, hx, ha⟩
        exact ⟨x, List.mem_cons_of_mem _ hx, ha⟩
      · rintro ⟨x, hx, ha⟩
        rcases List.mem_cons.mp hx with rfl | hx'
        · exact absurd ha hd
        · exact ⟨x, hx', ha⟩

/-- C2: application terminates at the first `delete_file` with the deletion
outcome regardless of its position; the operations after it are never
executed and contribute no diagnostic entries. -/
theorem C2_delete_short_circuit (content : Str) (cs1 cs2 : List Change) (del : Change)
    (hdel : del.action = some "delete_file".data)
    (h1 : ∀ ch ∈ cs1, ch.action ≠ some "delete_file".data) :
    apply_changes_locally content (cs1 ++ del :: cs2) =
      (none, (apply_changes_locally content cs1).2) := by
  induction cs1 generalizing content with
  | nil =>
    simp only [List.nil_append]
    rw [apply_cons_none cs2 (applyOne_delete content del hdel)]
    rfl
  | cons ch rest ih =>
    obtain ⟨c, ds, hc⟩ := applyOne_not_delete content ch (h1 ch (by simp))
    rw [List.cons_append, apply_cons_some _ hc, apply_cons_some rest hc,
      ih c (fun x hx => h1 x (by simp [hx]))]

/-- Witness for C2 at a concrete input: the `delete_file` sits between an
erase (which logs one diagnostic) and a write that is never executed. -/
theorem C2_delete_short_circuit_witness :
    mkDeleteFile.action = some "delete_file".data ∧
    (∀ ch ∈ [mkErase "b".data], ch.action ≠ some "delete_file".data) ∧
    apply_changes_locally "a".data ([mkErase "b".data] ++ mkDeleteFile :: [mkWrite "z".data]) =
      (none, (apply_changes_locally "a".data [mkErase "b".data]).2) :=
  ⟨by decide, by decide,
    C2_delete_short_circuit "a".data [mkErase "b".data] [mkWrite "z".data] mkDeleteFile
      (by decide) (by decide)⟩

/-- C3: a write resets the working buffer to its content field, discarding
the buffer effects of every earlier operation in the list, while every
operation after the write applies on top of the written content. -/
theorem C3_write_resets (content : Str) (cs1 cs2 : List Change) (w : Change)
    (hw : w.action = some "write".data)
    (h1 : ∀ ch ∈ cs1, ch.action ≠ some "delete_file".data) :
    (apply_changes_locally content (cs1 ++ w :: cs2)).1 =
      (apply_changes_locally (w.content.getD []) cs2).1 := by
  induction cs1 generalizing content with
  | nil =>
    simp only [List.nil_append]
    have hone : applyOne content w = (some (w.content.getD []), []) := by
      simp only [applyOne, hw]
      rw [if_pos trivial]
    rw [apply_cons_some cs2 hone]
  | cons ch rest ih =>
    obtain ⟨c, ds, hc⟩ := applyOne_not_delete content ch (h1 ch (by simp))
    rw [List.cons_append, apply_cons_some _ hc]
    exact ih c (fun x hx => h1 x (by simp [hx]))

/-- Witness for C3 at a concrete input: an append before the write is
discarded, an append after it lands on the written content. -/
theorem C3_write_resets_witness :
    (mkWrite "hello".data).action = some "write".data ∧
    (∀ ch ∈ [mkInsertAt "Q".data "end".data], ch.action ≠ some "delete_file".data) ∧
    (apply_changes_locally "abc".data
        ([mkInsertAt "Q".data "end".data] ++ mkWrite "hello".data ::
          [mkInsertAt "!".data "end".data])).1 =
      (apply_changes_locally ((mkWrite "hello".data).content.getD [])
        [mkInsertAt "!".data "end".data]).1 :=
  ⟨by decide, by decide,
    C3_write_resets "abc".data [mkInsertAt "Q".data "end".data]
      [mkInsertAt "!".data "end".data] (mkWrite "hello".data) (by decide) (by decide)⟩

/-- C1: when no normalization-affecting characters (tab or CR) occur in the
content before the first normalized match, a Replace substitutes exactly the
original-text span of length `search.length` starting at the match offset
with the replace text, leaving all text before and after that span
unchanged. -/
theorem C1_anchor_replace_exact (content search repl : Str) (i : Nat)
    (hs : search ≠ [])
    (hfind : find_in_content content search = some i)
    (hclean : ∀ c ∈ content.take i, c ≠ '\t' ∧ c ≠ '\r') :
    apply_changes_locally content [mkReplace search repl] =
      (some (content.take i ++ repl ++ content.drop (i + search.length)), []) := by
  have hleN : i ≤ (normalize_whitespace content).length :=
    findSub_le _ _ i hfind
  have hle : i ≤ content.length := by
    by_contra hlt
    push_neg at hlt
    have htake : content.take i = content := List.take_of_length_le (Nat.le_of_lt hlt)
    have hnorm : normalize_whitespace content = content :=
      normalize_of_clean content (fun c hc => hclean c (htake.symm ▸ hc))
    rw [hnorm] at hleN
    omega
  have e1 : ((normalize_whitespace content).take i).length = i := by
    rw [List.length_take]; omega
  have e2 : (content.take i).length = i := by
    rw [List.length_take]; omega
  have h1 : applyOne content (mkReplace search repl) =
      (some (content.take i ++ repl ++ content.drop (i + search.length)), []) := by
    simp only [applyOne, mkReplace, Option.getD_some]
    rw [if_neg (by decide), if_neg (by decide), if_pos trivial]
    rw [if_neg hs, hfind]
    simp only [e1, e2]
  rw [apply_cons_some [] h1]
  rfl

/-- Witness for C1: the spec's concrete example. -/
theorem C1_anchor_replace_exact_witness :
    "    pass".data ≠ ([] : Str) ∧
    find_in_content "def f():\n    pass".data "    pass".data = some 9 ∧
    apply_changes_locally "def f():\n    pass".data
        [mkReplace "    pass".data "    return 1".data] =
      (some "def f():\n    return 1".data, []) :=
  ⟨by decide, by decide,
    (C1_anchor_replace_exact "def f():\n    pass".data "    pass".data
        "    return 1".data 9 (by decide) (by decide) (by decide)).trans (by decide)⟩

/-- C5 counterexample: the outcome of an Erase is not literally identical to
the outcome of a Replace with empty replacement — when the anchor is absent
the two log different diagnostics (the code prints one warning for erase and
two for replace). -/
theorem C5_counterexample :
    apply_changes_locally "a".data [mkErase "b".data] ≠
      apply_changes_locally "a".data [mkReplace "b".data []] := by
  decide

/-- C5 (amended): an Erase produces exactly the same resulting buffer as a
Replace with the same search text and an empty replacement string (the
diagnostics logs can differ when the search is missing or not found). -/
theorem C5_erase_is_replace_empty (content search : Str) :
    (apply_changes_locally content [mkErase search]).1 =
      (apply_changes_locally content [mkReplace search []]).1 := by
  by_cases hs : search = []
  · subst hs; rfl
  · cases hf : find_in_content content search with
    | none =>
      have h1 : applyOne content (mkErase search) = (some content, [Diag.eraseNotFound]) := by
        simp only [applyOne, mkErase, Option.getD_some]
        rw [if_neg (by decide), if_neg (by decide), if_neg (by decide), if_pos trivial]
        rw [if_neg hs, hf]
      have h2 : applyOne content (mkReplace search []) =
          (some content,
            [Diag.replaceNotFoundWarn, Diag.replaceSearchedFor (search.take 100)] ++
            match find_similar_text content search 3 with
            | [] => []
            | sg :: _ => [Diag.replaceSimilarFound (sg.take 100)]) := by
        simp only [applyOne, mkReplace, Option.getD_some]
        rw [if_neg (by decide), if_neg (by decide), if_pos trivial]
        rw [if_neg hs, hf]
      rw [apply_cons_some [] h1, apply_cons_some [] h2]
    | some i =>
      have h1 : applyOne content (mkErase search) =
          (some (content.take (content.take ((normalize_whitespace content).take i).length).length ++
            content.drop ((content.take ((normalize_whitespace content).take i).length).length +
              search.length)), []) := by
        simp only [applyOne, mkErase, Option.getD_some]
        rw [if_neg (by decide), if_neg (by decide), if_neg (by decide), if_pos trivial]
        rw [if_neg hs, hf]
      have h2 : applyOne content (mkReplace search []) =
          (some (content.take (content.take ((normalize_whitespace content).take i).length).length ++
            content.drop ((content.take ((normalize_whitespace content).take i).length).length +
              search.length)), []) := by
        simp only [applyOne, mkReplace, Option.getD_some]
        rw [if_neg (by decide), if_neg (by decide), if_pos trivial]
        rw [if_neg hs, hf]
        simp
      rw [apply_cons_some [] h1, apply_cons_some [] h2]

/-- C6 counterexample: a `write` operation with an absent `content` field is
not rejected as malformed — it resets the buffer to the empty string (a
change of the buffer) and logs no diagnostic. -/
theorem C6_counterexample :
    apply_changes_locally "abc".data [{ action := some "write".data }] = (some [], []) ∧
      "abc".data ≠ ([] : Str) := by
  decide

/-- C6 (amended): a `replace`, `erase`, or `insert` (position before/after)
operation whose `search` field is absent is skipped with exactly one
diagnostic, leaves the buffer unchanged, and processing continues with the
next operation; a `write` whose `content` field is absent is not rejected:
it resets the buffer to the empty string with no diagnostic and processing
continues. -/
theorem C6_missing_required_fields (content : Str) (rest : List Change) (ins : Str) :
    apply_changes_locally content ({ action := some "replace".data } :: rest) =
      ((apply_changes_locally content rest).1,
        Diag.replaceMissingSearch :: (apply_changes_locally content rest).2) ∧
    apply_changes_locally content ({ action := some "erase".data } :: rest) =
      ((apply_changes_locally content rest).1,
        Diag.eraseMissingSearch :: (apply_changes_locally content rest).2) ∧
    apply_changes_locally content
        ({ action := some "insert".data, insert := some ins,
           position := some "before".data } :: rest) =
      ((apply_changes_locally content rest).1,
        Diag.insertMissingAnchor :: (apply_changes_locally content rest).2) ∧
    apply_changes_locally content
        ({ action := some "insert".data, insert := some ins,
           position := some "after".data } :: rest) =
      ((apply_changes_locally content rest).1,
        Diag.insertMissingAnchor :: (apply_changes_locally content rest).2) ∧
    apply_changes_locally content ({ action := some "write".data } :: rest) =
      ((apply_changes_locally ([] : Str) rest).1, (apply_changes_locally ([] : Str) rest).2) :=
  ⟨rfl, rfl, rfl, rfl, rfl⟩

/-- C7 counterexample: an operation with an unknown action is skipped, but
silently — the diagnostics log stays empty, against the claim that a
diagnostic is produced. -/
theorem C7_counterexample :
    apply_changes_locally "ab".data [{ action := some "frobnicate".data }] =
      (some "ab".data, []) := by
  decide

/-- C7 (amended): an operation whose action is none of the known actions is
skipped silently (no diagnostic): the buffer is unchanged by it and all
subsequent operations are still applied, the whole set's outcome being that
of the remaining operations alone. -/
theorem C7_unknown_action_skipped (content : Str) (rest : List Change) (ch : Change)
    (h1 : ch.action ≠ some "write".data)
    (h2 : ch.action ≠ some "delete_file".data)
    (h3 : ch.action ≠ some "replace".data)
    (h4 : ch.action ≠ some "erase".data)
    (h5 : ch.action ≠ some "insert".data) :
    apply_changes_locally content (ch :: rest) = apply_changes_locally content rest := by
  have hone : applyOne content ch = (some content, []) := by
    simp only [applyOne]
    rw [if_neg h1, if_neg h2, if_neg h3, if_neg h4, if_neg h5]
  rw [apply_cons_some rest hone]
  rfl

/-- Witness for C7 (amended) at a concrete input. -/
theorem C7_unknown_action_skipped_witness :
    (({ action := some "frobnicate".data } : Change).action ≠ some "write".data) ∧
    (({ action := some "frobnicate".data } : Change).action ≠ some "delete_file".data) ∧
    apply_changes_locally "ab".data
        ({ action := some "frobnicate".data } :: [mkWrite "z".data]) =
      apply_changes_locally "ab".data [mkWrite "z".data] :=
  ⟨by decide, by decide,
    C7_unknown_action_skipped "ab".data [mkWrite "z".data]
      { action := some "frobnicate".data }
      (by decide) (by decide) (by decide) (by decide) (by decide)⟩

/-- Modelled from the spec: the line-addressed applier of spec §4.2 is not
present under `src/` (the repository only ships the anchor-addressed
applier); its `LineErase` step is modelled from the spec's words: compute
the contiguous span of lines starting at the 0-based index with length
equal to the operation content's line count; if the span is within bounds
and the current lines at that span equal the operation's content lines
exactly (element-wise), delete the span; otherwise skip and emit a
`ContentMismatch` diagnostic naming the expected vs. found lines. -/
def lineErase (buf : List Str) (line : Nat) (content : Str) : List Str × List Diag :=
  let clines := split_on_nl content
  let idx := line - 1
  let found := (buf.drop idx).take clines.length
  if idx + clines.length ≤ buf.length ∧ found = clines then
    (buf.take idx ++ buf.drop (idx + clines.length), [])
  else
    (buf, [Diag.contentMismatch clines found])

/-- C9: a `LineErase` whose targeted span is within bounds and whose content
lines equal the current lines at that span exactly removes exactly that span
and leaves all surrounding lines unaffected; in particular
`["a","b","c"]` with erase at line 2, content `"b"`, yields `["a","c"]`. -/
theorem C9_line_erase_exact :
    (∀ (pre post : List Str) (content : Str),
      lineErase (pre ++ split_on_nl content ++ post) (pre.length + 1) content =
        (pre ++ post, [])) ∧
    lineErase ["a".data, "b".data, "c".data] 2 "b".data = (["a".data, "c".data], []) := by
  constructor
  · intro pre post content
    simp only [lineErase]
    have hidx : pre.length + 1 - 1 = pre.length := by omega
    rw [hidx]
    have hfound : ((pre ++ split_on_nl content ++ post).drop pre.length).take
        (split_on_nl content).length = split_on_nl content := by
      rw [List.append_assoc, List.drop_left]
      exact List.take_left _ _
    have hbound : pre.length + (split_on_nl content).length ≤
        (pre ++ split_on_nl content ++ post).length := by
      simp only [List.length_append]
      omega
    rw [if_pos ⟨hbound, hfound⟩]
    have htake : (pre ++ split_on_nl content ++ post).take pre.length = pre := by
      rw [List.append_assoc]
      exact List.take_left _ _
    have hdrop2 : (pre ++ split_on_nl content ++ post).drop
        (pre.length + (split_on_nl content).length) = post :=
      List.drop_left' (by rw [List.length_append])
    rw [htake, hdrop2]
  · decide

end Four
